import Mathlib

/-!
Verification of the HMM model-selection strategies of `my_model_selectors.py`
(AIND-Recognizer).  The module is shallowly embedded: Python floats become an
exact carrier `α` extended with `nan`/`inf`/`-inf`, the external
`GaussianHMM` trainer/scorer becomes an abstract `Trainer` record, Python
dicts become association lists, and the caught/uncaught exception structure of
each `select` method is made explicit with `Option`/`Except`.
-/

/-- IEEE-754-style extended values over an exact numeric carrier `α`:
`nan`, `inf` (Python `float('inf')`), `ninf` (`float('-inf')`) and finite
values.  Mirrors the Python floats the selectors manipulate. -/
inductive PF (α : Type) where
  | nan : PF α
  | inf : PF α
  | ninf : PF α
  | fin : α → PF α
deriving DecidableEq

variable {α : Type} [LinearOrderedField α] {M : Type}

/-- Python float `<`: `nan` is incomparable with everything (all comparisons
false), `-inf` is below every non-`nan` value, `inf` above. -/
def PF.blt : PF α → PF α → Bool
  | .nan, _ => false
  | _, .nan => false
  | .inf, _ => false
  | _, .inf => true
  | .ninf, .ninf => false
  | .ninf, _ => true
  | _, .ninf => false
  | .fin x, .fin y => decide (x < y)

/-- Python float addition on extended values. -/
def PF.add : PF α → PF α → PF α
  | .nan, _ => .nan
  | _, .nan => .nan
  | .inf, .ninf => .nan
  | .ninf, .inf => .nan
  | .inf, _ => .inf
  | _, .inf => .inf
  | .ninf, _ => .ninf
  | _, .ninf => .ninf
  | .fin x, .fin y => .fin (x + y)

/-- Python float negation. -/
def PF.neg : PF α → PF α
  | .nan => .nan
  | .inf => .ninf
  | .ninf => .inf
  | .fin x => .fin (-x)

/-- Python float subtraction. -/
def PF.sub (a b : PF α) : PF α := PF.add a (PF.neg b)

/-- Python float multiplication (IEEE: `0 * inf = nan`). -/
def PF.mul : PF α → PF α → PF α
  | .nan, _ => .nan
  | _, .nan => .nan
  | .inf, .inf => .inf
  | .inf, .ninf => .ninf
  | .ninf, .inf => .ninf
  | .ninf, .ninf => .inf
  | .inf, .fin x => if 0 < x then .inf else if x < 0 then .ninf else .nan
  | .fin x, .inf => if 0 < x then .inf else if x < 0 then .ninf else .nan
  | .ninf, .fin x => if 0 < x then .ninf else if x < 0 then .inf else .nan
  | .fin x, .ninf => if 0 < x then .ninf else if x < 0 then .inf else .nan
  | .fin x, .fin y => .fin (x * y)

/-- Division of a Python float by a positive machine integer (used by the two
mean computations). -/
def PF.divNat (a : PF α) (k : ℕ) : PF α :=
  match a with
  | .nan => .nan
  | .inf => .inf
  | .ninf => .ninf
  | .fin x => .fin (x / (k : α))

/-- A feature matrix, as a list of rows. -/
abbrev Mat (α : Type) := List (List α)

/-- Row count: `X.shape[0]`. -/
def Mat.rows (X : Mat α) : ℕ := X.length

/-- Column count: `X.shape[1]` (the matrices supplied by the corpus are
rectangular). -/
def Mat.cols (X : Mat α) : ℕ := (X.headD []).length

/-- The Python exceptions that can escape `select`. -/
inductive PyErr where
  | keyError
  | assertionError
  | valueError
  | nameError
  | trainError
deriving DecidableEq

/-- The external trainer/scorer boundary (`GaussianHMM` of hmmlearn): `fit`
models `GaussianHMM(n_components=n, ..., random_state=fixed).fit(X, lengths)`,
`refit` models calling `.fit` again on an existing model object, and `score`
models `model.score(X, lengths)`.  Each call may fail (raise). -/
structure Trainer (α : Type) (M : Type) where
  fit : ℕ → Mat α → List ℕ → Except Unit M
  refit : M → Mat α → List ℕ → Except Unit M
  score : M → Mat α → List ℕ → Except Unit (PF α)

/-- Modelled from the spec: `combine_sequences` (in `asl_utils`, which is
repository code not under `src/`), §4.1 SequenceCombiner — the row-wise
concatenation, in the given index order, of the selected sequences, paired
with each selected sequence's row count. -/
def combine_sequences (split_index_list : List ℕ) (sequences : List (Mat α)) :
    Mat α × List ℕ :=
  let sequences_fold := split_index_list.map (fun i => sequences.getD i [])
  (sequences_fold.flatten, sequences_fold.map List.length)

/-- Modelled from the spec: the fold-splitter interface of §3/§6 (sklearn
`KFold(n_splits)`, an external collaborator): consecutive test blocks, the
first `n_samples % n_splits` of size `n_samples / n_splits + 1`, the rest one
smaller; the train indices are all remaining indices in order.  Raises
`ValueError` when the requested fold count exceeds the sample count. -/
def kfSplit (n_splits n_samples : ℕ) : Except PyErr (List (List ℕ × List ℕ)) :=
  if n_samples < n_splits then .error .valueError
  else .ok ((List.range n_splits).map (fun i =>
    let q := n_samples / n_splits
    let r := n_samples % n_splits
    let start := i * q + min i r
    let size := if i < r then q + 1 else q
    ((List.range n_samples).filter
        (fun j => decide (j < start) || decide (start + size ≤ j)),
     List.range' start size)))

/-- Numpy mean `np.mean` applied to a Python list of floats: `nan` on the empty list
(numpy emits a `RuntimeWarning` and returns `nan`), otherwise sum over
length. -/
def npMean (l : List (PF α)) : PF α :=
  match l with
  | [] => PF.nan
  | _ => PF.divNat (l.foldl PF.add (PF.fin 0)) l.length

/-- Python `statistics.mean`, which raises `StatisticsError` on the empty list. -/
def statsMean (l : List (PF α)) : Except Unit (PF α) :=
  match l with
  | [] => .error ()
  | _ => .ok (PF.divNat (l.foldl PF.add (PF.fin 0)) l.length)

/-- Python dict lookup `d[k]`, over an association list (insertion order). -/
def dictGet? {β : Type} (d : List (String × β)) (k : String) : Option β :=
  (d.find? (fun p => decide (p.1 = k))).map Prod.snd

/-- The `ModelSelector` context: the fields bound by `__init__`
(`my_model_selectors.py` lines 16-34). -/
structure ModelSelector (α : Type) where
  words : List (String × List (Mat α))
  hwords : List (String × (Mat α × List ℕ))
  sequences : List (Mat α)
  X : Mat α
  lengths : List ℕ
  this_word : String
  n_constant : ℕ
  min_n_components : ℕ
  max_n_components : ℕ
  random_state : ℕ

/-- Constructor `ModelSelector.__init__` (lines 16-34): stores the two corpus
dictionaries and immediately indexes both with `this_word`
(`all_word_sequences[this_word]`, `all_word_Xlengths[this_word]`); a label
missing from either dictionary raises `KeyError` during construction. -/
def ModelSelector.init (all_word_sequences : List (String × List (Mat α)))
    (all_word_Xlengths : List (String × (Mat α × List ℕ)))
    (this_word : String) (n_constant min_n max_n random_state : ℕ) :
    Except PyErr (ModelSelector α) :=
  match dictGet? all_word_sequences this_word with
  | none => .error .keyError
  | some sequences =>
    match dictGet? all_word_Xlengths this_word with
    | none => .error .keyError
    | some xl =>
      .ok { words := all_word_sequences
            hwords := all_word_Xlengths
            sequences := sequences
            X := xl.1
            lengths := xl.2
            this_word := this_word
            n_constant := n_constant
            min_n_components := min_n
            max_n_components := max_n
            random_state := random_state }

/-- Method `ModelSelector.base_model` (lines 39-58): train on the label's full
`X`/`lengths`; every exception is caught and `None` returned. -/
def base_model (t : Trainer α M) (s : ModelSelector α) (num_states : ℕ) :
    Option M :=
  match t.fit num_states s.X s.lengths with
  | .ok m => some m
  | .error _ => none

/-- The list `range(self.min_n_components, self.max_n_components + 1)`. -/
def searchRange (s : ModelSelector α) : List ℕ :=
  List.range' s.min_n_components (s.max_n_components + 1 - s.min_n_components)

/-- Method `SelectorConstant.select` (lines 66-72). -/
def SelectorConstant.select (t : Trainer α M) (s : ModelSelector α) :
    Option M :=
  base_model t s s.n_constant

/-- One iteration of the running-best update shared by the search strategies:
a failed candidate (`none`) leaves `(best_score, best_model)` unchanged; a
scored candidate replaces the running best exactly when the strict comparison
`better score best_score` holds (`score < best_score` for BIC,
`score > best_score` for DIC/CV). -/
def selStep (better : PF α → PF α → Bool) (st : PF α × Option M)
    (cand : Option (PF α × M)) : PF α × Option M :=
  match cand with
  | none => st
  | some c => if better c.1 st.1 then (c.1, some c.2) else st

/-- The candidate loop of a search strategy, as a left fold of `selStep` over
the state-count range. -/
def selFold (better : PF α → PF α → Bool) (cand : ℕ → Option (PF α × M))
    (st : PF α × Option M) (L : List ℕ) : PF α × Option M :=
  L.foldl (fun st n => selStep better st (cand n)) st

/-- The `try` body of one `SelectorBIC` loop iteration (lines 96-104): `none`
when training or scoring fails (the bare `except` catches everything,
including the failed `assert` when `base_model` returns `None`), otherwise
the pair (BIC score, model), with `p = n² + 2·M·n − 1` over the integers and
`score = −2·logL + p·log N`.  `npLog` stands for `np.log` on the row count. -/
def bicCandidate (npLog : ℕ → PF α) (t : Trainer α M) (s : ModelSelector α)
    (n_states : ℕ) : Option (PF α × M) :=
  match base_model t s n_states with
  | none => none
  | some model =>
    match t.score model s.X s.lengths with
    | .error _ => none
    | .ok logL =>
      let p : ℤ := (n_states : ℤ) ^ 2 + 2 * (Mat.cols s.X : ℤ) * n_states - 1
      some (PF.add (PF.mul (PF.fin (-2 : α)) logL)
              (PF.mul (PF.fin (p : α)) (npLog (Mat.rows s.X))), model)

/-- Method `SelectorBIC.select` (lines 83-110): running minimum starting from
`best_score = float('inf')`, `best_model = None`. -/
def SelectorBIC.select (npLog : ℕ → PF α) (t : Trainer α M)
    (s : ModelSelector α) : Option M :=
  (selFold (fun sc best => PF.blt sc best) (bicCandidate npLog t s)
    (PF.inf, none) (searchRange s)).2

/-- The anti-likelihood list comprehension of `SelectorDIC` (lines 134-137):
the candidate model scored on every OTHER label's pre-combined
matrix/lengths (`self.hwords[word]`), in corpus order; a dictionary miss or
a scoring failure on any single other label aborts the whole comprehension
(and hence, inside the `try`, disqualifies the candidate). -/
def dicAntiScores (t : Trainer α M) (s : ModelSelector α) (model : M) :
    Except Unit (List (PF α)) :=
  (s.words.filter (fun p => decide (p.1 ≠ s.this_word))).mapM (fun p =>
    match dictGet? s.hwords p.1 with
    | none => .error ()
    | some xl => t.score model xl.1 xl.2)

/-- The `try` body of one `SelectorDIC` loop iteration (lines 130-138):
`none` when training, own-label scoring, or any other-label scoring fails,
otherwise (`logL - np.mean(anti-scores)`, model). -/
def dicCandidate (t : Trainer α M) (s : ModelSelector α) (n_states : ℕ) :
    Option (PF α × M) :=
  match base_model t s n_states with
  | none => none
  | some model =>
    match t.score model s.X s.lengths with
    | .error _ => none
    | .ok logL =>
      match dicAntiScores t s model with
      | .error _ => none
      | .ok scores => some (PF.sub logL (npMean scores), model)

/-- Method `SelectorDIC.select` (lines 123-146): running maximum starting from
`best_score = float('-inf')`, `best_model = None`. -/
def SelectorDIC.select (t : Trainer α M) (s : ModelSelector α) : Option M :=
  (selFold (fun sc best => PF.blt best sc) (dicCandidate t s)
    (PF.ninf, none) (searchRange s)).2

/-- Lines 170-177 of one `SelectorCV` fold iteration: `base_model` (a fit on
the full label data), the bare `assert isinstance(model, GaussianHMM)` —
which raises `AssertionError` when `base_model` returned `None` — and the
in-place refit `model.fit(X_train, train_lengths)` on the fold's training
subset.  Neither the assert nor the refit is inside a `try`, so both raise
out of `select`. -/
def cvFoldModel (t : Trainer α M) (s : ModelSelector α) (n_states : ℕ)
    (fold : List ℕ × List ℕ) : Except PyErr M :=
  match base_model t s n_states with
  | none => .error .assertionError
  | some model =>
    let tr := combine_sequences fold.1 s.sequences
    match t.refit model tr.1 tr.2 with
    | .error _ => .error .trainError
    | .ok model => .ok model

/-- One `SelectorCV` fold iteration (lines 169-182): obtain the fold's refit
model, then score the fold's test subset inside the only `try` of the loop —
the score is appended on success and silently dropped on failure; the Python
variable `model` is rebound either way. -/
def cvFoldStep (t : Trainer α M) (s : ModelSelector α) (n_states : ℕ)
    (acc : List (PF α) × Option M) (fold : List ℕ × List ℕ) :
    Except PyErr (List (PF α) × Option M) :=
  match cvFoldModel t s n_states fold with
  | .error e => .error e
  | .ok model =>
    let te := combine_sequences fold.2 s.sequences
    match t.score model te.1 te.2 with
    | .ok sc => .ok (acc.1 ++ [sc], some model)
    | .error _ => .ok (acc.1, some model)

/-- One `SelectorCV` candidate (lines 166-187): `KFold()` with its default 5
splits, the fold loop, then `statistics.mean(state_scores)` with
`float('inf')` substituted when the mean raises on an empty list; the model
paired with the score is the Python variable `model` after the fold loop,
i.e. the LAST fold's refit model (`NameError` if no fold ran). -/
def cvCandidate (t : Trainer α M) (s : ModelSelector α) (n_states : ℕ) :
    Except PyErr (PF α × M) :=
  match kfSplit 5 s.sequences.length with
  | .error e => .error e
  | .ok folds =>
    match folds.foldlM (cvFoldStep t s n_states) ([], none) with
    | .error e => .error e
    | .ok acc =>
      let score := match statsMean acc.1 with
        | .ok v => v
        | .error _ => PF.inf
      match acc.2 with
      | some model => .ok (score, model)
      | none => .error .nameError

/-- Method `SelectorCV.select` (lines 155-193): first `best_model` is a full-data
fit at the fixed `min_num_states = 3`; with fewer than 3 sequences that
fallback is returned without any fold split; otherwise the candidate loop
runs a running maximum from `best_score = float('-inf')`, propagating any
exception a candidate raises. -/
def SelectorCV.select (t : Trainer α M) (s : ModelSelector α) :
    Except PyErr (Option M) :=
  let best_model := base_model t s 3
  if s.sequences.length < 3 then .ok best_model
  else
    match (searchRange s).foldlM (fun st n =>
        (match cvCandidate t s n with
        | .error e => .error e
        | .ok c => .ok (selStep (fun sc best => PF.blt best sc) st (some c)) :
          Except PyErr (PF α × Option M)))
        ((PF.ninf : PF α), best_model) with
    | .error e => .error e
    | .ok st => .ok st.2

/-- The model the source actually keeps for an accepted CV candidate:
`base_model` on the full data, then refit on the LAST fold's training
subset. -/
def cvLastFoldModel (t : Trainer α M) (s : ModelSelector α) (n_states : ℕ) :
    Except PyErr M :=
  match kfSplit 5 s.sequences.length with
  | .error e => .error e
  | .ok folds =>
    match folds.getLast? with
    | none => .error .nameError
    | some fold => cvFoldModel t s n_states fold

/-! ### Shared lemmas about the running-best fold -/

/-- Basic facts about the Python float strict order. -/
lemma PF.blt_nan_right (a : PF α) : PF.blt a PF.nan = false := by
  cases a <;> rfl

lemma PF.blt_fin_inf (x : α) : PF.blt (PF.fin x) PF.inf = true := rfl

lemma PF.blt_ninf_fin (x : α) : PF.blt PF.ninf (PF.fin x) = true := rfl

lemma PF.blt_fin_fin (x y : α) :
    PF.blt (PF.fin x) (PF.fin y) = decide (x < y) := rfl

lemma selFold_nil (better : PF α → PF α → Bool)
    (cand : ℕ → Option (PF α × M)) (st : PF α × Option M) :
    selFold better cand st [] = st := rfl

lemma selFold_cons (better : PF α → PF α → Bool)
    (cand : ℕ → Option (PF α × M)) (st : PF α × Option M) (a : ℕ)
    (L : List ℕ) :
    selFold better cand st (a :: L)
      = selFold better cand (selStep better st (cand a)) L := rfl

/-- If no candidate of the list beats the current best score, the fold leaves
the state untouched. -/
lemma selFold_const (better : PF α → PF α → Bool)
    (cand : ℕ → Option (PF α × M)) (st : PF α × Option M) (L : List ℕ)
    (h : ∀ n ∈ L, ∀ c, cand n = some c → better c.1 st.1 = false) :
    selFold better cand st L = st := by
  induction L with
  | nil => rfl
  | cons a L ih =>
    have hstep : selStep better st (cand a) = st := by
      cases hc : cand a with
      | none => rfl
      | some c => simp [selStep, h a (List.mem_cons_self a L) c hc]
    rw [selFold_cons, hstep]
    exact ih (fun n hn c hc => h n (List.mem_cons_of_mem a hn) c hc)

/-- Over a list of candidates that all produced finite scores, the running
best score is either the initial one or one of the candidates' scores. -/
lemma selFold_fst_shape (better : PF α → PF α → Bool)
    (cand : ℕ → Option (PF α × M)) (c : ℕ → α) (mdl : ℕ → M) (L : List ℕ)
    (st : PF α × Option M)
    (h : ∀ n ∈ L, cand n = some (PF.fin (c n), mdl n)) :
    (selFold better cand st L).1 = st.1 ∨
      ∃ j ∈ L, (selFold better cand st L).1 = PF.fin (c j) := by
  induction L generalizing st with
  | nil => exact Or.inl rfl
  | cons a L ih =>
    rw [selFold_cons]
    rcases ih (selStep better st (cand a))
        (fun n hn => h n (List.mem_cons_of_mem a hn)) with h1 | ⟨j, hj, h2⟩
    · rw [h1, h a (List.mem_cons_self a L)]
      by_cases hb : better (PF.fin (c a)) st.1 = true
      · exact Or.inr ⟨a, List.mem_cons_self a L, by simp [selStep, hb]⟩
      · exact Or.inl (by simp [selStep, hb])
    · exact Or.inr ⟨j, List.mem_cons_of_mem a hj, h2⟩

/-- The first candidate achieving the best score wins: if every earlier
candidate is strictly beaten by `nstar`, and no later candidate strictly
beats `nstar`, the fold ends exactly on `nstar`'s score and model. -/
lemma selFold_argbest (better : PF α → PF α → Bool)
    (cand : ℕ → Option (PF α × M)) (c : ℕ → α) (mdl : ℕ → M)
    (A B : List ℕ) (nstar : ℕ) (st0 : PF α × Option M)
    (hA : ∀ n ∈ A, cand n = some (PF.fin (c n), mdl n))
    (hs : cand nstar = some (PF.fin (c nstar), mdl nstar))
    (hB : ∀ n ∈ B, cand n = some (PF.fin (c n), mdl n))
    (hinit : better (PF.fin (c nstar)) st0.1 = true)
    (hgain : ∀ k ∈ A, better (PF.fin (c nstar)) (PF.fin (c k)) = true)
    (hstay : ∀ k ∈ B, better (PF.fin (c k)) (PF.fin (c nstar)) = false) :
    selFold better cand st0 (A ++ nstar :: B)
      = (PF.fin (c nstar), some (mdl nstar)) := by
  have happ : selFold better cand st0 (A ++ nstar :: B)
      = selFold better cand (selFold better cand st0 A) (nstar :: B) :=
    List.foldl_append _ _ _ _
  rw [happ]
  have hb : better (PF.fin (c nstar)) (selFold better cand st0 A).1 = true := by
    rcases selFold_fst_shape better cand c mdl A st0 hA with h | ⟨j, hj, h⟩
    · rw [h]; exact hinit
    · rw [h]; exact hgain j hj
  have hstep : selStep better (selFold better cand st0 A) (cand nstar)
      = (PF.fin (c nstar), some (mdl nstar)) := by
    rw [hs]; simp [selStep, hb]
  rw [selFold_cons, hstep]
  refine selFold_const better cand _ B (fun n hn cc hcc => ?_)
  rw [hB n hn] at hcc
  cases hcc
  exact hstay n hn

/-- The running best over the scored candidates only (the value `select`
would compute if handed just the successful candidates in order). -/
def bestOf (better : PF α → PF α → Bool) (init : PF α)
    (cands : List (PF α × M)) : Option M :=
  (cands.foldl (fun st c => selStep better st (some c)) (init, none)).2

/-- Candidates that fail are invisible to the fold: the search over the full
range equals the fold over the successful (scored) candidates only. -/
lemma selFold_eq_scored (better : PF α → PF α → Bool)
    (cand : ℕ → Option (PF α × M)) (st : PF α × Option M) (L : List ℕ) :
    selFold better cand st L
      = ((L.map cand).reduceOption).foldl
          (fun st c => selStep better st (some c)) st := by
  induction L generalizing st with
  | nil => rfl
  | cons a L ih =>
    rw [selFold_cons, List.map_cons]
    cases hc : cand a with
    | none =>
      rw [List.reduceOption_cons_of_none]
      simpa [selStep] using ih st
    | some c =>
      rw [List.reduceOption_cons_of_some, List.foldl_cons]
      exact ih (selStep better st (some c))

/-- Decomposition of the search range around an interior point. -/
lemma searchRange_decomp (s : ModelSelector α) (nstar : ℕ)
    (h1 : s.min_n_components ≤ nstar) (h2 : nstar ≤ s.max_n_components) :
    searchRange s
      = List.range' s.min_n_components (nstar - s.min_n_components)
        ++ nstar :: List.range' (nstar + 1) (s.max_n_components - nstar) := by
  have e1 : s.max_n_components + 1 - s.min_n_components
      = (s.max_n_components - nstar + 1) + (nstar - s.min_n_components) := by
    omega
  have e2 : s.min_n_components + (nstar - s.min_n_components) = nstar := by
    omega
  rw [searchRange, e1, ← List.range'_append_1, e2, List.range'_succ]

/-! ### Lemmas about the cross-validation loops -/

/-- When every candidate in the list computes without raising, the CV
candidate loop is the plain running-best fold over the candidates'
results. -/
lemma cv_foldlM_ok (t : Trainer α M) (s : ModelSelector α) (L : List ℕ)
    (st : PF α × Option M)
    (h : ∀ n ∈ L, ∃ v, cvCandidate t s n = .ok v) :
    L.foldlM (fun st n =>
        (match cvCandidate t s n with
        | .error e => .error e
        | .ok c => .ok (selStep (fun sc best => PF.blt best sc) st (some c)) :
          Except PyErr (PF α × Option M))) st
      = .ok (selFold (fun sc best => PF.blt best sc)
          (fun n => (cvCandidate t s n).toOption) st L) := by
  induction L generalizing st with
  | nil => rfl
  | cons a L ih =>
    obtain ⟨v, hv⟩ := h a (List.mem_cons_self a L)
    rw [List.foldlM_cons, hv]
    show (Except.ok _ >>= _) = _
    rw [selFold_cons, hv]
    exact ih _ (fun n hn => h n (List.mem_cons_of_mem a hn))

/-- Whatever the fold's test scoring does, a successful fold iteration
rebinds the Python variable `model` to the fold's refit model. -/
lemma cvFoldStep_snd (t : Trainer α M) (s : ModelSelector α) (n_states : ℕ)
    (acc res : List (PF α) × Option M) (fold : List ℕ × List ℕ)
    (h : cvFoldStep t s n_states acc fold = .ok res) :
    ∃ m, cvFoldModel t s n_states fold = .ok m ∧ res.2 = some m := by
  unfold cvFoldStep at h
  cases hm : cvFoldModel t s n_states fold with
  | error e => rw [hm] at h; exact absurd h (by simp)
  | ok model =>
    rw [hm] at h
    dsimp only at h
    refine ⟨model, rfl, ?_⟩
    cases hs : t.score model (combine_sequences fold.2 s.sequences).1
        (combine_sequences fold.2 s.sequences).2 with
    | ok sc => rw [hs] at h; cases h; rfl
    | error e => rw [hs] at h; cases h; rfl

/-- After a fold loop that completes without raising, the surviving `model`
is the refit model of the LAST fold. -/
lemma cvFold_last (t : Trainer α M) (s : ModelSelector α) (n_states : ℕ)
    (folds : List (List ℕ × List ℕ)) (acc res : List (PF α) × Option M)
    (hne : folds ≠ [])
    (h : folds.foldlM (cvFoldStep t s n_states) acc = .ok res) :
    ∃ fold, folds.getLast? = some fold ∧
      ∃ m, cvFoldModel t s n_states fold = .ok m ∧ res.2 = some m := by
  induction folds generalizing acc with
  | nil => exact absurd rfl hne
  | cons f rest ih =>
    rw [List.foldlM_cons] at h
    cases hstep : cvFoldStep t s n_states acc f with
    | error e =>
      rw [hstep] at h
      exact absurd h (by simp [Bind.bind, Except.bind])
    | ok acc' =>
      rw [hstep] at h
      have h' : rest.foldlM (cvFoldStep t s n_states) acc' = .ok res := h
      cases rest with
      | nil =>
        have hres : (Except.ok acc' : Except PyErr (List (PF α) × Option M))
            = .ok res := h'
        cases hres
        exact ⟨f, rfl, cvFoldStep_snd t s n_states acc res f hstep⟩
      | cons g rest' =>
        obtain ⟨fold, hl, hm⟩ := ih acc' (by simp) h'
        exact ⟨fold, by rw [List.getLast?_cons_cons]; exact hl, hm⟩

/-- A CV candidate that computes without raising hands back exactly the model
refit on the LAST fold's training subset. -/
lemma cvCandidate_lastModel (t : Trainer α M) (s : ModelSelector α)
    (n_states : ℕ) (sc : PF α) (m : M)
    (h : cvCandidate t s n_states = .ok (sc, m)) :
    cvLastFoldModel t s n_states = .ok m := by
  unfold cvCandidate at h
  cases hk : kfSplit 5 s.sequences.length with
  | error e => rw [hk] at h; exact absurd h (by simp)
  | ok folds =>
    rw [hk] at h
    dsimp only at h
    have hne : folds ≠ [] := by
      unfold kfSplit at hk
      by_cases hlt : s.sequences.length < 5
      · rw [if_pos hlt] at hk; exact absurd hk (by simp)
      · rw [if_neg hlt] at hk
        cases hk
        simp [List.range_succ]
    cases hf : folds.foldlM (cvFoldStep t s n_states) ([], none) with
    | error e => rw [hf] at h; exact absurd h (by simp)
    | ok acc =>
      rw [hf] at h
      dsimp only at h
      obtain ⟨fold, hl, m', hm', hsnd⟩ :=
        cvFold_last t s n_states folds ([], none) acc hne hf
      rw [hsnd] at h
      dsimp only at h
      simp only [Except.ok.injEq, Prod.mk.injEq] at h
      unfold cvLastFoldModel
      rw [hk]
      dsimp only
      rw [hl]
      dsimp only
      rw [hm', h.2]

instance {ε β : Type} [DecidableEq ε] [DecidableEq β] :
    DecidableEq (Except ε β) := fun a b =>
  match a, b with
  | .error e, .error f =>
    if h : e = f then .isTrue (by rw [h])
    else .isFalse (fun hc => h (by cases hc; rfl))
  | .error _, .ok _ => .isFalse (fun hc => Except.noConfusion hc)
  | .ok _, .error _ => .isFalse (fun hc => Except.noConfusion hc)
  | .ok x, .ok y =>
    if h : x = y then .isTrue (by rw [h])
    else .isFalse (fun hc => h (by cases hc; rfl))

/-! ### Concrete fixtures used by counterexamples and witnesses -/

namespace Fix

/-- A one-row, one-column sequence. -/
def rowq (i : ℚ) : Mat ℚ := [[i]]

def seqs5 : List (Mat ℚ) := [rowq 0, rowq 1, rowq 2, rowq 3, rowq 4]

def X5 : Mat ℚ := [[0], [1], [2], [3], [4]]

/-- A context for label `x` with five one-row sequences, search range 2..3. -/
def s5 : ModelSelector ℚ :=
  { words := [("x", seqs5)]
    hwords := [("x", (X5, [1, 1, 1, 1, 1]))]
    sequences := seqs5
    X := X5
    lengths := [1, 1, 1, 1, 1]
    this_word := "x"
    n_constant := 3
    min_n_components := 2
    max_n_components := 3
    random_state := 14 }

/-- Trainer whose model is its state count; scoring fails exactly for the
2-state model and otherwise returns 100. -/
def t1 : Trainer ℚ ℕ :=
  { fit := fun n _ _ => .ok n
    refit := fun m _ _ => .ok m
    score := fun m _ _ => if m = 2 then .error () else .ok (.fin 100) }

/-- Recording trainer: the model is exactly the data it was last fit on. -/
def t2 : Trainer ℚ (Mat ℚ × List ℕ) :=
  { fit := fun _ X l => .ok (X, l)
    refit := fun _ X l => .ok (X, l)
    score := fun _ _ _ => .ok (.fin 1) }

/-- Context `s5` with the degenerate search range 2..2. -/
def s5b : ModelSelector ℚ :=
  { s5 with min_n_components := 2, max_n_components := 2 }

/-- Context `s5` with only four sequences. -/
def s4 : ModelSelector ℚ :=
  { s5 with sequences := [rowq 0, rowq 1, rowq 2, rowq 3] }

/-- Context `s5` with only two sequences. -/
def s2 : ModelSelector ℚ :=
  { s5 with sequences := [rowq 0, rowq 1] }

/-- Trainer whose training always fails. -/
def tfail : Trainer ℚ ℕ :=
  { fit := fun _ _ _ => .error ()
    refit := fun m _ _ => .ok m
    score := fun _ _ _ => .ok (.fin 0) }

/-- Trainer with constant log-likelihood -10 for every state count. -/
def t3 : Trainer ℚ ℕ :=
  { fit := fun n _ _ => .ok n
    refit := fun m _ _ => .ok m
    score := fun _ _ _ => .ok (.fin (-10)) }

/-- A second label's pre-combined matrix. -/
def XY : Mat ℚ := [[9], [9]]

/-- Context `s5` extended with a second label `y` in the corpus. -/
def sD : ModelSelector ℚ :=
  { s5 with words := [("x", seqs5), ("y", [XY])],
            hwords := [("x", (X5, [1, 1, 1, 1, 1])), ("y", (XY, [2]))] }

/-- Trainer for the DIC scenarios: own-label scores 50 (2 states) and 40
(3 states), anti-label score 1. -/
def t4 : Trainer ℚ ℕ :=
  { fit := fun n _ _ => .ok n
    refit := fun m _ _ => .ok m
    score := fun m X _ => if X = XY then .ok (.fin 1)
      else if m = 2 then .ok (.fin 50) else .ok (.fin 40) }

end Fix

/-! ### Claim theorems -/

/-- Claim C9: constructing any `ModelSelector` (hence any of the four
strategies) with a target label that is not a key of both supplied corpus
dictionaries raises `KeyError` at construction time, before `select` can be
called. -/
theorem C9_init_keyError (all_word_sequences : List (String × List (Mat α)))
    (all_word_Xlengths : List (String × (Mat α × List ℕ)))
    (this_word : String) (n_constant min_n max_n random_state : ℕ)
    (h : dictGet? all_word_sequences this_word = none ∨
         dictGet? all_word_Xlengths this_word = none) :
    ModelSelector.init all_word_sequences all_word_Xlengths this_word
      n_constant min_n max_n random_state = .error .keyError := by
  cases hw : dictGet? all_word_sequences this_word with
  | none =>
    unfold ModelSelector.init
    rw [hw]
  | some sequences =>
    cases h with
    | inl h1 => rw [hw] at h1; cases h1
    | inr h2 =>
      unfold ModelSelector.init
      rw [hw]
      dsimp only
      rw [h2]

/-- Witness for C9 at a concrete input: the label `b` is missing from both
dictionaries, so construction raises `KeyError`. -/
theorem C9_init_keyError_witness :
    ModelSelector.init (α := ℚ) [("a", [[[1]]])] [("a", ([[1]], [1]))] "b"
      3 2 10 14 = .error .keyError :=
  C9_init_keyError _ _ _ _ _ _ _ (Or.inl (by decide))

/-- Claim C7: with fewer than 3 sequences, `SelectorCV.select` returns the
result of training at the fixed minimum state count 3 on the label's full
matrix/lengths (no fold split, no candidate search); in particular any model
it returns is `fit 3 X lengths`. -/
theorem C7_cv_fallback (t : Trainer α M) (s : ModelSelector α)
    (h : s.sequences.length < 3) :
    SelectorCV.select t s = .ok (base_model t s 3) ∧
      ∀ m, base_model t s 3 = some m → t.fit 3 s.X s.lengths = .ok m := by
  constructor
  · unfold SelectorCV.select
    dsimp only
    rw [if_pos h]
  · intro m hm
    unfold base_model at hm
    cases hf : t.fit 3 s.X s.lengths with
    | ok mm => rw [hf] at hm; cases hm; rfl
    | error e => rw [hf] at hm; cases hm

/-- Witness for C7: a label with exactly 2 sequences makes `SelectorCV`
return the 3-state full-data model. -/
theorem C7_cv_fallback_witness :
    SelectorCV.select Fix.t1 Fix.s2 = .ok (base_model Fix.t1 Fix.s2 3) :=
  (C7_cv_fallback Fix.t1 Fix.s2 (by decide)).1

/-- A DIC candidate computed with no other labels in the corpus carries a
`nan` score (`np.mean` of the empty comprehension). -/
lemma dicCandidate_nan (t : Trainer α M) (s : ModelSelector α) (n : ℕ)
    (hfilter : s.words.filter (fun p => decide (p.1 ≠ s.this_word)) = []) :
    ∀ c, dicCandidate t s n = some c → c.1 = PF.nan := by
  intro c hc
  unfold dicCandidate at hc
  cases hb : base_model t s n with
  | none => rw [hb] at hc; cases hc
  | some model =>
    rw [hb] at hc
    dsimp only at hc
    cases hs : t.score model s.X s.lengths with
    | error e => rw [hs] at hc; cases hc
    | ok logL =>
      rw [hs] at hc
      dsimp only at hc
      have ha : dicAntiScores t s model = .ok [] := by
        unfold dicAntiScores
        rw [hfilter]
        rfl
      rw [ha] at hc
      dsimp only at hc
      cases hc
      show PF.sub logL (npMean []) = PF.nan
      cases logL <;> rfl

/-- Claim C10: if the corpus contains only the target label, every DIC
candidate score is the NaN produced by `np.mean([])`, NaN fails the strict
`>` comparison against the running best, so `SelectorDIC.select` returns
`None` for every (in particular every non-empty) search range. -/
theorem C10_dic_only_target (t : Trainer α M) (s : ModelSelector α)
    (honly : ∀ p ∈ s.words, p.1 = s.this_word)
    (hrange : s.min_n_components ≤ s.max_n_components) :
    SelectorDIC.select t s = none := by
  have hfilter : s.words.filter (fun p => decide (p.1 ≠ s.this_word)) = [] := by
    rw [List.filter_eq_nil_iff]
    intro p hp
    simp [honly p hp]
  unfold SelectorDIC.select
  rw [selFold_const]
  intro n _ c hc
  rw [dicCandidate_nan t s n hfilter c hc]
  rw [PF.blt_nan_right]

/-- Witness for C10: a corpus holding only the target label makes DIC return
`None` over the non-empty range 2..3. -/
theorem C10_dic_only_target_witness :
    SelectorDIC.select Fix.t1 Fix.s5 = none :=
  C10_dic_only_target Fix.t1 Fix.s5 (by decide) (by decide)

/-- Claim C2 counterexample: with a trainer that fails for every state count
and a label with 5 sequences, `SelectorCV.select` raises `AssertionError`
out of the fold loop (the `assert isinstance(model, GaussianHMM)` after a
failed `base_model` is not inside any `try`), instead of completing the
search — so CV does NOT recover training failures locally. -/
theorem C2_counterexample_cv_raises :
    SelectorCV.select Fix.tfail Fix.s5 = .error .assertionError := by decide

/-- Claim C2 amended, provable part: for Constant, BIC and DIC every
training/scoring failure is recovered locally — the search result equals the
running best over the successful candidates only, and when every candidate
fails `select` returns `None`; `SelectorConstant.select` is exactly the
caught `base_model` call. -/
theorem C2_amended_local_failure_isolation (npLog : ℕ → PF α)
    (t : Trainer α M) (s : ModelSelector α) :
    (SelectorBIC.select npLog t s
      = bestOf (fun sc best => PF.blt sc best) PF.inf
          (((searchRange s).map (bicCandidate npLog t s)).reduceOption)) ∧
    (SelectorDIC.select t s
      = bestOf (fun sc best => PF.blt best sc) PF.ninf
          (((searchRange s).map (dicCandidate t s)).reduceOption)) ∧
    ((∀ n ∈ searchRange s, bicCandidate npLog t s n = none) →
      SelectorBIC.select npLog t s = none) ∧
    ((∀ n ∈ searchRange s, dicCandidate t s n = none) →
      SelectorDIC.select t s = none) ∧
    (SelectorConstant.select t s = base_model t s s.n_constant) := by
  refine ⟨?_, ?_, ?_, ?_, rfl⟩
  · unfold SelectorBIC.select bestOf
    rw [selFold_eq_scored]
  · unfold SelectorDIC.select bestOf
    rw [selFold_eq_scored]
  · intro hall
    unfold SelectorBIC.select
    rw [selFold_const _ _ _ _ (fun n hn c hc => absurd hc (by rw [hall n hn]; simp))]
  · intro hall
    unfold SelectorDIC.select
    rw [selFold_const _ _ _ _ (fun n hn c hc => absurd hc (by rw [hall n hn]; simp))]

/-- Witness for the amended C2 at a concrete input: with the always-failing
trainer, BIC and DIC finish the search and return `None`. -/
theorem C2_amended_witness :
    SelectorBIC.select (fun _ => PF.fin 1) Fix.tfail Fix.s5 = none ∧
    SelectorDIC.select Fix.tfail Fix.s5 = none :=
  ⟨(C2_amended_local_failure_isolation (fun _ => PF.fin 1) Fix.tfail
      Fix.s5).2.2.1 (by decide),
   (C2_amended_local_failure_isolation (fun _ => PF.fin 1) Fix.tfail
      Fix.s5).2.2.2.1 (by decide)⟩

/-- Claim C3 evaluated at its failing input: candidate `n = 2` scores no
usable fold at all (every fold scoring fails, `statistics.mean` raises, the
code substitutes `float('inf')`), candidate `n = 3` collects five usable
fold scores with mean 100 — yet `select` returns the `n = 2` model, because
`inf` WINS the higher-is-better comparison instead of losing it. -/
theorem C3_code_eval_inf_sentinel_wins :
    SelectorCV.select Fix.t1 Fix.s5 = .ok (some 2) ∧
    cvCandidate Fix.t1 Fix.s5 2 = .ok (PF.inf, 2) ∧
    cvCandidate Fix.t1 Fix.s5 3 = .ok (PF.fin 100, 3) :=
  ⟨by decide, by decide, by with_unfolding_all rfl⟩

/-- Claim C4 evaluated at its failing input: a label with 4 sequences passes
the `< 3` guard, but the candidate loop calls `KFold()` with its default 5
splits; the splitter raises `ValueError` (5 folds > 4 sequences) and the
exception escapes `select` — the fold count is NOT clamped to the sequence
count. -/
theorem C4_code_eval_foldcount_valueerror :
    SelectorCV.select Fix.t1 Fix.s4 = .error .valueError := by decide

/-- Claim C5 counterexample: with the recording trainer (a model is exactly
the matrix/lengths it was last fit on) and 5 sequences, the model returned
by `SelectorCV.select` was last fit on the LAST fold's 4-sequence training
subset, not on the label's full 5-row matrix. -/
theorem C5_counterexample_fold_subset_model :
    SelectorCV.select Fix.t2 Fix.s5b
      = .ok (some ([[0], [1], [2], [3]], [1, 1, 1, 1])) ∧
    ([[0], [1], [2], [3]] : Mat ℚ) ≠ Fix.s5b.X :=
  ⟨by decide, by decide⟩

/-- Claim C1: for every candidate state count in the inclusive range whose
training and scoring succeed, `SelectorBIC.select` computes
`p = n² + 2·n·M − 1` (`M` the column count) and
`score = −2·logL + p·ln N` (`N` the row count, `npLog` standing for
`np.log`); with a trainer returning the same `logL` for every `n`, the model
returned is the one for the smallest `n` in the range (the minimal score). -/
theorem C1_bic_formula_and_smallest_n (npLog : ℕ → PF α) (t : Trainer α M)
    (s : ModelSelector α) (mdl : ℕ → M) (logL lv : α)
    (hfit : ∀ n ∈ searchRange s, base_model t s n = some (mdl n))
    (hscore : ∀ n ∈ searchRange s,
      t.score (mdl n) s.X s.lengths = .ok (PF.fin logL))
    (hlog : npLog (Mat.rows s.X) = PF.fin lv)
    (hpos : 0 ≤ lv)
    (hrange : s.min_n_components ≤ s.max_n_components) :
    (∀ n ∈ searchRange s,
        bicCandidate npLog t s n
          = some (PF.fin ((-2) * logL
              + (((n : ℤ) ^ 2 + 2 * (n : ℤ) * (Mat.cols s.X : ℤ) - 1 : ℤ) : α)
                * lv), mdl n)) ∧
    SelectorBIC.select npLog t s = some (mdl s.min_n_components) := by
  have hcand : ∀ n ∈ searchRange s,
      bicCandidate npLog t s n
        = some (PF.fin ((-2) * logL
            + (((n : ℤ) ^ 2 + 2 * (Mat.cols s.X : ℤ) * (n : ℤ) - 1 : ℤ) : α)
              * lv), mdl n) := by
    intro n hn
    unfold bicCandidate
    rw [hfit n hn]
    dsimp only
    rw [hscore n hn]
    dsimp only
    rw [hlog]
    rfl
  constructor
  · intro n hn
    rw [hcand n hn]
    have he : ((n : ℤ) ^ 2 + 2 * (Mat.cols s.X : ℤ) * (n : ℤ) - 1 : ℤ)
        = ((n : ℤ) ^ 2 + 2 * (n : ℤ) * (Mat.cols s.X : ℤ) - 1 : ℤ) := by
      ring
    rw [he]
  · have hdec : searchRange s
        = [] ++ s.min_n_components ::
            List.range' (s.min_n_components + 1)
              (s.max_n_components - s.min_n_components) := by
      have h := searchRange_decomp s s.min_n_components (le_refl _) hrange
      simpa using h
    unfold SelectorBIC.select
    rw [hdec, selFold_argbest (fun sc best => PF.blt sc best)
        (bicCandidate npLog t s)
        (fun n => (-2) * logL
            + (((n : ℤ) ^ 2 + 2 * (Mat.cols s.X : ℤ) * (n : ℤ) - 1 : ℤ) : α)
              * lv)
        mdl [] _ s.min_n_components (PF.inf, none)
        (fun n hn => absurd hn (List.not_mem_nil n))
        (hcand s.min_n_components (by rw [hdec]; simp))
        (fun n hn => hcand n (by rw [hdec]; simp [hn]))
        (PF.blt_fin_inf _)
        (fun k hk => absurd hk (List.not_mem_nil k))
        ?_]
    intro k hk
    simp only [PF.blt_fin_fin, decide_eq_false_iff_not, not_lt]
    have hmk : s.min_n_components + 1 ≤ k := (List.mem_range'_1.mp hk).1
    have h0 : (0 : ℤ) ≤ (s.min_n_components : ℤ) := Int.ofNat_nonneg _
    have hM : (0 : ℤ) ≤ (Mat.cols s.X : ℤ) := Int.ofNat_nonneg _
    have hmk' : (s.min_n_components : ℤ) ≤ (k : ℤ) := by
      exact_mod_cast Nat.le_of_succ_le hmk
    have hint : ((s.min_n_components : ℤ) ^ 2
        + 2 * (Mat.cols s.X : ℤ) * (s.min_n_components : ℤ) - 1 : ℤ)
        ≤ ((k : ℤ) ^ 2 + 2 * (Mat.cols s.X : ℤ) * (k : ℤ) - 1 : ℤ) := by
      nlinarith [mul_le_mul hmk' hmk' h0 (h0.trans hmk'),
        mul_le_mul_of_nonneg_left hmk' hM]
    have hcast : (((s.min_n_components : ℤ) ^ 2
        + 2 * (Mat.cols s.X : ℤ) * (s.min_n_components : ℤ) - 1 : ℤ) : α)
        ≤ (((k : ℤ) ^ 2 + 2 * (Mat.cols s.X : ℤ) * (k : ℤ) - 1 : ℤ) : α) := by
      exact_mod_cast hint
    exact add_le_add_left (mul_le_mul_of_nonneg_right hcast hpos) _

/-- Witness for C1: a trainer with constant log-likelihood −10 over the
range 2..3 makes `SelectorBIC` pick the smallest state count 2. -/
theorem C1_bic_witness :
    SelectorBIC.select (fun _ => PF.fin 1) Fix.t3 Fix.s5 = some 2 :=
  (C1_bic_formula_and_smallest_n (fun _ => PF.fin 1) Fix.t3 Fix.s5 id (-10) 1
    (by decide) (by with_unfolding_all decide) rfl (by norm_num)
    (by decide)).2

/-! ### Arithmetic helpers for the mean computations -/

lemma pf_foldl_add_fin (l : List α) (x : α) :
    (l.map PF.fin).foldl PF.add (PF.fin x) = PF.fin (l.foldl (· + ·) x) := by
  induction l generalizing x with
  | nil => rfl
  | cons a l ih => exact ih (x + a)

lemma foldl_add_eq_add_sum (l : List α) (x : α) :
    l.foldl (· + ·) x = x + l.sum := by
  induction l generalizing x with
  | nil => simp
  | cons a l ih => simp [ih (x + a), add_assoc]

/-- Numpy mean `np.mean` over a non-empty list of finite floats is their exact
arithmetic mean. -/
lemma npMean_map_fin (l : List α) (hne : l ≠ []) :
    npMean (l.map PF.fin) = PF.fin (l.sum / l.length) := by
  cases l with
  | nil => exact absurd rfl hne
  | cons a l =>
    show PF.divNat (((a :: l).map PF.fin).foldl PF.add (PF.fin 0))
        ((a :: l).map PF.fin).length = _
    rw [pf_foldl_add_fin, List.length_map]
    simp [PF.divNat, foldl_add_eq_add_sum]

lemma PF.sub_fin_fin (x y : α) :
    PF.sub (PF.fin x) (PF.fin y) = PF.fin (x - y) := by
  show PF.fin (x + -y) = _
  rw [← sub_eq_add_neg]

/-- Claim C6: for every candidate whose training and all per-label scorings
succeed, `SelectorDIC.select` scores `logL` on the own label minus the
arithmetic mean of the model's score over every OTHER label's pre-combined
matrix/lengths, and returns the maximiser (first in ascending order); a
scoring failure against any single other label disqualifies that candidate
entirely. -/
theorem C6_dic_score_and_argmax (t : Trainer α M) (s : ModelSelector α)
    (mdl : ℕ → M) (L : ℕ → α) (vals : ℕ → List α) (nstar : ℕ)
    (hfit : ∀ n ∈ searchRange s, base_model t s n = some (mdl n))
    (hscore : ∀ n ∈ searchRange s,
      t.score (mdl n) s.X s.lengths = .ok (PF.fin (L n)))
    (hanti : ∀ n ∈ searchRange s,
      dicAntiScores t s (mdl n) = .ok ((vals n).map PF.fin))
    (hne : ∀ n ∈ searchRange s, vals n ≠ [])
    (hstar : nstar ∈ searchRange s)
    (hfirst : ∀ k ∈ searchRange s, k < nstar →
      L k - (vals k).sum / (vals k).length
        < L nstar - (vals nstar).sum / (vals nstar).length)
    (hbest : ∀ k ∈ searchRange s,
      L k - (vals k).sum / (vals k).length
        ≤ L nstar - (vals nstar).sum / (vals nstar).length) :
    (∀ n ∈ searchRange s,
        dicCandidate t s n
          = some (PF.fin (L n - (vals n).sum / (vals n).length), mdl n)) ∧
    SelectorDIC.select t s = some (mdl nstar) ∧
    (∀ n model, base_model t s n = some model →
        dicAntiScores t s model = .error () → dicCandidate t s n = none) := by
  have hcand : ∀ n ∈ searchRange s,
      dicCandidate t s n
        = some (PF.fin (L n - (vals n).sum / (vals n).length), mdl n) := by
    intro n hn
    unfold dicCandidate
    rw [hfit n hn]
    dsimp only
    rw [hscore n hn]
    dsimp only
    rw [hanti n hn]
    dsimp only
    rw [npMean_map_fin (vals n) (hne n hn), PF.sub_fin_fin]
  have hb := List.mem_range'_1.mp hstar
  have hmin : s.min_n_components ≤ nstar := hb.1
  have hmax : nstar ≤ s.max_n_components := by omega
  have hdec := searchRange_decomp s nstar hmin hmax
  refine ⟨hcand, ?_, ?_⟩
  · unfold SelectorDIC.select
    rw [hdec, selFold_argbest (fun sc best => PF.blt best sc)
        (dicCandidate t s)
        (fun n => L n - (vals n).sum / (vals n).length) mdl _ _ nstar
        (PF.ninf, none)
        (fun n hn => hcand n (by rw [hdec]; simp [hn]))
        (hcand nstar hstar)
        (fun n hn => hcand n (by rw [hdec]; simp [hn]))
        (PF.blt_ninf_fin _)
        ?_ ?_]
    · intro k hk
      have hklt : k < nstar := by
        have := List.mem_range'_1.mp hk
        omega
      have hkmem : k ∈ searchRange s := by rw [hdec]; simp [hk]
      simp only [PF.blt_fin_fin, decide_eq_true_eq]
      exact hfirst k hkmem hklt
    · intro k hk
      have hkmem : k ∈ searchRange s := by rw [hdec]; simp [hk]
      simp only [PF.blt_fin_fin, decide_eq_false_iff_not, not_lt]
      exact hbest k hkmem
  · intro n model hbm herr
    unfold dicCandidate
    rw [hbm]
    dsimp only
    cases hs : t.score model s.X s.lengths with
    | error e => rfl
    | ok logL =>
      dsimp only
      rw [herr]

/-- Witness for C6: with two labels and hand-computable scores
(`logL(2) = 50`, `logL(3) = 40`, anti-score `1` against the single other
label), DIC picks `n = 2`, the maximiser of `logL − antiLogL`. -/
theorem C6_dic_witness :
    SelectorDIC.select Fix.t4 Fix.sD = some 2 :=
  (C6_dic_score_and_argmax Fix.t4 Fix.sD id
    (fun n => if n = 2 then (50 : ℚ) else 40) (fun _ => [1]) 2
    (by decide) (by decide) (by decide) (by decide) (by decide)
    (by
      intro k hk hlt
      have hk' : k ∈ List.range' 2 2 := hk
      have := List.mem_range'_1.mp hk'
      omega)
    (by
      intro k hk
      have hk' : k ∈ [2, 3] := hk
      fin_cases hk' <;> norm_num)).2.1

namespace Fix

/-- Trainer for the DIC tie scenario: every state count scores 50 on the own
label and 1 against the other label, so all DIC scores tie at 49. -/
def t5 : Trainer ℚ ℕ :=
  { fit := fun n _ _ => .ok n
    refit := fun m _ _ => .ok m
    score := fun _ X _ => if X = XY then .ok (.fin 1) else .ok (.fin 50) }

end Fix

/-- When every candidate computes without raising and the guard passes, the
CV search is the plain running-best fold over the candidates' results. -/
lemma cvSelect_ok (t : Trainer α M) (s : ModelSelector α)
    (h : ∀ n ∈ searchRange s, ∃ v, cvCandidate t s n = .ok v)
    (hguard : ¬ s.sequences.length < 3) :
    SelectorCV.select t s
      = .ok ((selFold (fun sc best => PF.blt best sc)
          (fun n => (cvCandidate t s n).toOption)
          ((PF.ninf : PF α), base_model t s 3) (searchRange s)).2) := by
  unfold SelectorCV.select
  dsimp only
  rw [if_neg hguard, cv_foldlM_ok t s _ _ h]

/-- With all-finite candidate scores, BIC returns the first (smallest-`n`)
candidate whose score is minimal. -/
lemma bic_select_argbest (npLog : ℕ → PF α) (t : Trainer α M)
    (s : ModelSelector α) (c : ℕ → α) (mdl : ℕ → M) (nstar : ℕ)
    (hcand : ∀ n ∈ searchRange s,
      bicCandidate npLog t s n = some (PF.fin (c n), mdl n))
    (hstar : nstar ∈ searchRange s)
    (hfirst : ∀ k ∈ searchRange s, k < nstar → c nstar < c k)
    (hbest : ∀ k ∈ searchRange s, c nstar ≤ c k) :
    SelectorBIC.select npLog t s = some (mdl nstar) := by
  have hb := List.mem_range'_1.mp hstar
  have hmin : s.min_n_components ≤ nstar := hb.1
  have hmax : nstar ≤ s.max_n_components := by omega
  have hdec := searchRange_decomp s nstar hmin hmax
  unfold SelectorBIC.select
  rw [hdec, selFold_argbest (fun sc best => PF.blt sc best)
      (bicCandidate npLog t s) c mdl _ _ nstar (PF.inf, none)
      (fun n hn => hcand n (by rw [hdec]; simp [hn]))
      (hcand nstar hstar)
      (fun n hn => hcand n (by rw [hdec]; simp [hn]))
      (PF.blt_fin_inf _) ?_ ?_]
  · intro k hk
    have hklt : k < nstar := by
      have := List.mem_range'_1.mp hk
      omega
    have hkmem : k ∈ searchRange s := by rw [hdec]; simp [hk]
    simp only [PF.blt_fin_fin, decide_eq_true_eq]
    exact hfirst k hkmem hklt
  · intro k hk
    have hkmem : k ∈ searchRange s := by rw [hdec]; simp [hk]
    simp only [PF.blt_fin_fin, decide_eq_false_iff_not, not_lt]
    exact hbest k hkmem

/-- With all-finite candidate scores, DIC returns the first (smallest-`n`)
candidate whose score is maximal. -/
lemma dic_select_argbest (t : Trainer α M) (s : ModelSelector α)
    (c : ℕ → α) (mdl : ℕ → M) (nstar : ℕ)
    (hcand : ∀ n ∈ searchRange s,
      dicCandidate t s n = some (PF.fin (c n), mdl n))
    (hstar : nstar ∈ searchRange s)
    (hfirst : ∀ k ∈ searchRange s, k < nstar → c k < c nstar)
    (hbest : ∀ k ∈ searchRange s, c k ≤ c nstar) :
    SelectorDIC.select t s = some (mdl nstar) := by
  have hb := List.mem_range'_1.mp hstar
  have hmin : s.min_n_components ≤ nstar := hb.1
  have hmax : nstar ≤ s.max_n_components := by omega
  have hdec := searchRange_decomp s nstar hmin hmax
  unfold SelectorDIC.select
  rw [hdec, selFold_argbest (fun sc best => PF.blt best sc)
      (dicCandidate t s) c mdl _ _ nstar (PF.ninf, none)
      (fun n hn => hcand n (by rw [hdec]; simp [hn]))
      (hcand nstar hstar)
      (fun n hn => hcand n (by rw [hdec]; simp [hn]))
      (PF.blt_ninf_fin _) ?_ ?_]
  · intro k hk
    have hklt : k < nstar := by
      have := List.mem_range'_1.mp hk
      omega
    have hkmem : k ∈ searchRange s := by rw [hdec]; simp [hk]
    simp only [PF.blt_fin_fin, decide_eq_true_eq]
    exact hfirst k hkmem hklt
  · intro k hk
    have hkmem : k ∈ searchRange s := by rw [hdec]; simp [hk]
    simp only [PF.blt_fin_fin, decide_eq_false_iff_not, not_lt]
    exact hbest k hkmem

/-- With all-finite candidate mean scores and the guard passed, CV returns
the first (smallest-`n`) candidate whose mean fold score is maximal. -/
lemma cv_select_argbest (t : Trainer α M) (s : ModelSelector α)
    (c : ℕ → α) (mdl : ℕ → M) (nstar : ℕ)
    (hcand : ∀ n ∈ searchRange s,
      cvCandidate t s n = .ok (PF.fin (c n), mdl n))
    (hguard : 3 ≤ s.sequences.length)
    (hstar : nstar ∈ searchRange s)
    (hfirst : ∀ k ∈ searchRange s, k < nstar → c k < c nstar)
    (hbest : ∀ k ∈ searchRange s, c k ≤ c nstar) :
    SelectorCV.select t s = .ok (some (mdl nstar)) := by
  rw [cvSelect_ok t s (fun n hn => ⟨_, hcand n hn⟩) (not_lt.mpr hguard)]
  have hcand' : ∀ n ∈ searchRange s,
      (cvCandidate t s n).toOption = some (PF.fin (c n), mdl n) := by
    intro n hn
    rw [hcand n hn]
    rfl
  have hb := List.mem_range'_1.mp hstar
  have hmin : s.min_n_components ≤ nstar := hb.1
  have hmax : nstar ≤ s.max_n_components := by omega
  have hdec := searchRange_decomp s nstar hmin hmax
  rw [hdec, selFold_argbest (fun sc best => PF.blt best sc)
      (fun n => (cvCandidate t s n).toOption) c mdl _ _ nstar
      ((PF.ninf : PF α), base_model t s 3)
      (fun n hn => hcand' n (by rw [hdec]; simp [hn]))
      (hcand' nstar hstar)
      (fun n hn => hcand' n (by rw [hdec]; simp [hn]))
      (PF.blt_ninf_fin _) ?_ ?_]
  · intro k hk
    have hklt : k < nstar := by
      have := List.mem_range'_1.mp hk
      omega
    have hkmem : k ∈ searchRange s := by rw [hdec]; simp [hk]
    simp only [PF.blt_fin_fin, decide_eq_true_eq]
    exact hfirst k hkmem hklt
  · intro k hk
    have hkmem : k ∈ searchRange s := by rw [hdec]; simp [hk]
    simp only [PF.blt_fin_fin, decide_eq_false_iff_not, not_lt]
    exact hbest k hkmem

/-- Claim C5 amended: when the guard passes and every candidate computes
without raising a finite mean score, `SelectorCV.select` returns the model
of the first candidate maximising the mean fold score — and that model is
the one refit on the LAST fold's training subset (`cvLastFoldModel`), not a
model trained on the full label matrix. -/
theorem C5_amended_cv_last_fold_model (t : Trainer α M) (s : ModelSelector α)
    (mdl : ℕ → M) (c : ℕ → α) (nstar : ℕ)
    (hcand : ∀ n ∈ searchRange s,
      cvCandidate t s n = .ok (PF.fin (c n), mdl n))
    (hguard : 3 ≤ s.sequences.length)
    (hstar : nstar ∈ searchRange s)
    (hfirst : ∀ k ∈ searchRange s, k < nstar → c k < c nstar)
    (hbest : ∀ k ∈ searchRange s, c k ≤ c nstar) :
    SelectorCV.select t s = .ok (some (mdl nstar)) ∧
    (∀ n ∈ searchRange s, cvLastFoldModel t s n = .ok (mdl n)) :=
  ⟨cv_select_argbest t s c mdl nstar hcand hguard hstar hfirst hbest,
   fun n hn => cvCandidate_lastModel t s n _ _ (hcand n hn)⟩

/-- Witness for the amended C5 at a concrete input: constant fold scores,
range 2..3, the first candidate (state count 2) wins. -/
theorem C5_amended_witness :
    SelectorCV.select Fix.t3 Fix.s5 = .ok (some 2) :=
  (C5_amended_cv_last_fold_model Fix.t3 Fix.s5 id (fun _ => (-10 : ℚ)) 2
    (by with_unfolding_all decide) (by decide) (by decide)
    (by
      intro k hk hlt
      have hk' : k ∈ List.range' 2 2 := hk
      have := List.mem_range'_1.mp hk'
      omega)
    (fun k hk => le_refl _)).1

/-- Claim C8: in each searching strategy (BIC, DIC, CV), when two candidate
state counts `n1 < n2` yield identical scores that are the best of the
range, `select` returns the model of the smaller state count `n1`, because
the running best is replaced only on a strict comparison. -/
theorem C8_tiebreak_first_wins (npLog : ℕ → PF α) (t : Trainer α M)
    (s : ModelSelector α) (c : ℕ → α) (mdl : ℕ → M) (n1 n2 : ℕ)
    (h1 : n1 ∈ searchRange s) (h2 : n2 ∈ searchRange s) (h12 : n1 < n2)
    (htie : c n1 = c n2) :
    ((∀ n ∈ searchRange s,
        bicCandidate npLog t s n = some (PF.fin (c n), mdl n)) →
     (∀ k ∈ searchRange s, k < n1 → c n1 < c k) →
     (∀ k ∈ searchRange s, c n1 ≤ c k) →
     SelectorBIC.select npLog t s = some (mdl n1)) ∧
    ((∀ n ∈ searchRange s,
        dicCandidate t s n = some (PF.fin (c n), mdl n)) →
     (∀ k ∈ searchRange s, k < n1 → c k < c n1) →
     (∀ k ∈ searchRange s, c k ≤ c n1) →
     SelectorDIC.select t s = some (mdl n1)) ∧
    ((∀ n ∈ searchRange s,
        cvCandidate t s n = .ok (PF.fin (c n), mdl n)) →
     3 ≤ s.sequences.length →
     (∀ k ∈ searchRange s, k < n1 → c k < c n1) →
     (∀ k ∈ searchRange s, c k ≤ c n1) →
     SelectorCV.select t s = .ok (some (mdl n1))) :=
  ⟨fun hc hf hb => bic_select_argbest npLog t s c mdl n1 hc h1 hf hb,
   fun hc hf hb => dic_select_argbest t s c mdl n1 hc h1 hf hb,
   fun hc hg hf hb => cv_select_argbest t s c mdl n1 hc hg h1 hf hb⟩

/-- Witness for C8: three concrete tie scenarios (constant BIC scores via
`log N = 0` and constant logL; DIC scores all 49; CV mean scores all −10);
each strategy returns the model for the smaller state count 2. -/
theorem C8_tiebreak_witness :
    SelectorBIC.select (fun _ => PF.fin 0) Fix.t3 Fix.s5 = some 2 ∧
    SelectorDIC.select Fix.t5 Fix.sD = some 2 ∧
    SelectorCV.select Fix.t3 Fix.s5 = .ok (some 2) :=
  ⟨(C8_tiebreak_first_wins (fun _ => PF.fin 0) Fix.t3 Fix.s5
      (fun _ => (20 : ℚ)) id 2 3 (by decide) (by decide) (by decide) rfl).1
      (by with_unfolding_all decide)
      (by
        intro k hk hlt
        have hk' : k ∈ List.range' 2 2 := hk
        have := List.mem_range'_1.mp hk'
        omega)
      (fun k hk => le_refl _),
   (C8_tiebreak_first_wins (fun _ => PF.fin 0) Fix.t5 Fix.sD
      (fun _ => (49 : ℚ)) id 2 3 (by decide) (by decide) (by decide) rfl).2.1
      (by with_unfolding_all decide)
      (by
        intro k hk hlt
        have hk' : k ∈ List.range' 2 2 := hk
        have := List.mem_range'_1.mp hk'
        omega)
      (fun k hk => le_refl _),
   (C8_tiebreak_first_wins (fun _ => PF.fin 0) Fix.t3 Fix.s5
      (fun _ => (-10 : ℚ)) id 2 3 (by decide) (by decide) (by decide) rfl).2.2
      (by with_unfolding_all decide) (by decide)
      (by
        intro k hk hlt
        have hk' : k ∈ List.range' 2 2 := hk
        have := List.mem_range'_1.mp hk'
        omega)
      (fun k hk => le_refl _)⟩
